import Mathlib

/-!
Verification of the tick-capture subscription reconciler
(`components/subscriptionhandler.py`, `db/database.py`).

Python dictionaries are embedded as insertion-ordered association lists:
`dInsert` updates an existing key in place or appends a fresh one, `dErase`
removes the (unique, for a genuine dict) entry for a key, `dGet?` is lookup.
Feed-session traffic is recorded as a trace of `FeedCall`s; a `FeedModel`
says which subscribe/unsubscribe batches raise, so failure propagation can
be studied.  Times and SQL values are embedded as `Int` (unix seconds);
Python's `int((E - S) / 60)` truncates the exact quotient toward zero,
which is `Int.tdiv` (exact for all magnitudes a unix timestamp reaches).
-/

/-- Insertion-ordered dictionary lookup (`d[k]` / `k in d`). -/
def dGet? {K V : Type} [DecidableEq K] (k : K) : List (K × V) → Option V
  | [] => none
  | (k', v) :: rest => if k = k' then some v else dGet? k rest

/-- Dictionary assignment `d[k] = v`: update in place or append. -/
def dInsert {K V : Type} [DecidableEq K] (k : K) (v : V) : List (K × V) → List (K × V)
  | [] => [(k, v)]
  | (k', v') :: rest => if k' = k then (k, v) :: rest else (k', v') :: dInsert k v rest

/-- Dictionary deletion `del d[k]`: removes the entry for `k`. -/
def dErase {K V : Type} [DecidableEq K] (k : K) : List (K × V) → List (K × V)
  | [] => []
  | (k', v') :: rest => if k' = k then rest else (k', v') :: dErase k rest

/-- The key list of a dictionary (unique for a genuine Python dict). -/
def dKeys {K V : Type} (d : List (K × V)) : List K := d.map Prod.fst

/-- `models/subscriptionitem.py`: the correlation token `(instrument, jobid)`
attached to every feed subscription. -/
structure SubscriptionItem where
  instrument : String
  jobid : Int
deriving DecidableEq

/-- One entry of the handler's `bp.SubscriptionList`
(`topic`, `fields`, correlation token). -/
structure SubEntry where
  topic : String
  fields : List String
  correlation : SubscriptionItem
deriving DecidableEq

/-- A job dictionary as consumed by `start_subscription`
(`{'id': ..., 'instruments': ..., 'fields': ...}`; the time fields are not
read by the subscription operations). -/
structure Job where
  id : Int
  instruments : List String
  fields : List String
deriving DecidableEq

/-- One call issued to the feed session (`self._session`). -/
inductive FeedCall where
  | subscribe (batch : List SubEntry)
  | unsubscribe (batch : List SubscriptionItem)
deriving DecidableEq

/-- The mutable registry state of `SubscriptionHandler`:
`_subscription_list` (the single, never-reset `bp.SubscriptionList`),
`_active_instruments` (instrument → correlation token, the spec's
`instrument_owners`) and `active_subscriptions` (job id → instrument list,
the spec's `job_instruments`). -/
structure HandlerState where
  subscription_list : List SubEntry
  active_instruments : List (String × SubscriptionItem)
  active_subscriptions : List (Int × List String)
deriving DecidableEq

/-- The freshly initialized handler: all three structures empty. -/
def initialState : HandlerState := ⟨[], [], []⟩

/-- Which feed-session calls raise: the environment model for the
`except`-paths of the handler. -/
structure FeedModel where
  subFails : List SubEntry → Bool
  unsubFails : List SubscriptionItem → Bool

/-- The feed model in which every session call succeeds. -/
def neverFails : FeedModel := ⟨fun _ => false, fun _ => false⟩

/-- Result of one handler operation: the state after it, the feed calls it
issued (attempted calls included), and whether it returned normally
(`ok = false` means an exception propagated to the caller). -/
structure OpOut where
  st : HandlerState
  calls : List FeedCall
  ok : Bool
deriving DecidableEq

/-- The `for instrument in job['instruments']` loop of `start_subscription`:
instruments not yet in `_active_instruments` are appended to the
subscription list and to `_active_instruments` with a fresh token. -/
def startLoop (jobId : Int) (flds : List String) :
    List String → List SubEntry → List (String × SubscriptionItem) →
    List SubEntry × List (String × SubscriptionItem)
  | [], slist, owners => (slist, owners)
  | i :: rest, slist, owners =>
    if (dGet? i owners).isSome then
      startLoop jobId flds rest slist owners
    else
      startLoop jobId flds rest (slist ++ [⟨i, flds, ⟨i, jobId⟩⟩]) (owners ++ [(i, ⟨i, jobId⟩)])

/-- `SubscriptionHandler.start_subscription` (`subscriptionhandler.py:87-117`).
Note two source facts this embedding preserves: the guard of the subscribe
call is `if job_instruments:` where `job_instruments` collects every
instrument of the job (not just the newly added ones), and the batch passed
to `session.subscribe` is the cumulative `self._subscription_list`.  On a
feed exception the registry changes made so far persist but
`active_subscriptions[job_id]` is not recorded. -/
def startSubscription (fm : FeedModel) (job : Job) (s : HandlerState) : OpOut :=
  let p := startLoop job.id job.fields job.instruments s.subscription_list s.active_instruments
  if job.instruments.isEmpty then
    ⟨{ s with
        subscription_list := p.1
        active_instruments := p.2
        active_subscriptions := dInsert job.id job.instruments s.active_subscriptions },
      [], true⟩
  else if fm.subFails p.1 then
    ⟨{ s with subscription_list := p.1, active_instruments := p.2 },
      [FeedCall.subscribe p.1], false⟩
  else
    ⟨{ s with
        subscription_list := p.1
        active_instruments := p.2
        active_subscriptions := dInsert job.id job.instruments s.active_subscriptions },
      [FeedCall.subscribe p.1], true⟩

/-- `any(instrument in job_instruments for jid, job_instruments in
self.active_subscriptions.items() if jid != job_id)`. -/
def usedByOthers (jobId : Int) (i : String) (active : List (Int × List String)) : Bool :=
  active.any (fun p => p.1 ≠ jobId ∧ i ∈ p.2)

/-- The `for instrument in instruments` loop of `stop_subscription`:
collects the tokens of instruments used by no other job into the
unsubscribe batch and deletes them from `_active_instruments`; a missing
token (`self._active_instruments[instrument]`) is a `KeyError`, returned as
`ok = false` with the mutations made so far. -/
def stopLoop (jobId : Int) (active : List (Int × List String)) :
    List String → List (String × SubscriptionItem) → List SubscriptionItem →
    List (String × SubscriptionItem) × List SubscriptionItem × Bool
  | [], owners, acc => (owners, acc, true)
  | i :: rest, owners, acc =>
    if usedByOthers jobId i active then
      stopLoop jobId active rest owners acc
    else
      match dGet? i owners with
      | none => (owners, acc, false)
      | some tok => stopLoop jobId active rest (dErase i owners) (acc ++ [tok])

/-- `SubscriptionHandler.stop_subscription` (`subscriptionhandler.py:119-158`).
A job id absent from `active_subscriptions` is a complete no-op.  The
unsubscribe batch is built only from instruments referenced by no other
job; `active_subscriptions[job_id]` is deleted last, so it survives an
exception raised earlier in the operation. -/
def stopSubscription (fm : FeedModel) (jobId : Int) (s : HandlerState) : OpOut :=
  match dGet? jobId s.active_subscriptions with
  | none => ⟨s, [], true⟩
  | some l =>
    match stopLoop jobId s.active_subscriptions l s.active_instruments [] with
    | (owners', toUnsub, true) =>
      if toUnsub.isEmpty then
        ⟨{ s with
            active_instruments := owners'
            active_subscriptions := dErase jobId s.active_subscriptions },
          [], true⟩
      else if fm.unsubFails toUnsub then
        ⟨{ s with active_instruments := owners' }, [FeedCall.unsubscribe toUnsub], false⟩
      else
        ⟨{ s with
            active_instruments := owners'
            active_subscriptions := dErase jobId s.active_subscriptions },
          [FeedCall.unsubscribe toUnsub], true⟩
    | (owners', _, false) => ⟨{ s with active_instruments := owners' }, [], false⟩

/-- Sequential processing of a list of work items, each of which may raise:
the first `ok = false` result aborts the remaining items, exactly as an
uncaught exception aborts the `for` loops of `manage_subscriptions`. -/
def runJobs {α : Type} (f : α → HandlerState → OpOut) : List α → HandlerState → OpOut
  | [], s => ⟨s, [], true⟩
  | x :: xs, s =>
    let o := f x s
    if o.ok then
      let o' := runJobs f xs o.st
      ⟨o'.st, o.calls ++ o'.calls, o'.ok⟩
    else o

/-- One item of the activation pass: `if job_id not in
self.active_subscriptions: self.start_subscription(job)`. -/
def actStep (fm : FeedModel) (p : Int × Job) (st : HandlerState) : OpOut :=
  if (dGet? p.1 st.active_subscriptions).isSome then ⟨st, [], true⟩
  else startSubscription fm p.2 st

/-- One item of the deactivation pass: `if job_id not in self.job_cache:
self.stop_subscription(job_id)`. -/
def deactStep (fm : FeedModel) (cache : List (Int × Job)) (jobId : Int)
    (st : HandlerState) : OpOut :=
  if (dGet? jobId cache).isSome then ⟨st, [], true⟩
  else stopSubscription fm jobId st

/-- One reconcile step of `manage_subscriptions` (`subscriptionhandler.py:
229-237`): activate cache jobs missing from `active_subscriptions`, then
deactivate the snapshot `list(self.active_subscriptions.keys())` entries
missing from the cache.  An exception anywhere aborts the whole step. -/
def tick (fm : FeedModel) (cache : List (Int × Job)) (s : HandlerState) : OpOut :=
  let o1 := runJobs (actStep fm) cache s
  if o1.ok then
    let o2 := runJobs (deactStep fm cache) (dKeys o1.st.active_subscriptions) o1.st
    ⟨o2.st, o1.calls ++ o2.calls, o2.ok⟩
  else o1

/-- The number of subscribe calls in a trace whose batch covers
instrument `i`. -/
def subscribesFor (i : String) (calls : List FeedCall) : Nat :=
  (calls.filter (fun c => match c with
    | .subscribe b => b.any (fun e => e.topic = i)
    | .unsubscribe _ => false)).length

/-- The spec's registry-consistency invariant: an instrument appears in
`instrument_owners` (`_active_instruments`) iff some job's entry in
`job_instruments` (`active_subscriptions`) contains it. -/
def regInv (s : HandlerState) : Prop :=
  ∀ i : String, (dGet? i s.active_instruments).isSome ↔
    ∃ p ∈ s.active_subscriptions, i ∈ p.2

/-- A feed model for exercising the failure path: any subscribe batch that
covers instrument `"X"` raises; everything else succeeds. -/
def failOnX : FeedModel :=
  ⟨fun batch => batch.any (fun e => e.topic = "X"), fun _ => false⟩

/-- One row of the `jobs` table joined with its instruments and fields, as
read by `Database.query_active_jobs`.  `duration` is the stored value,
which `insert_data` computes in minutes. -/
structure JobRow where
  job_id : Int
  job_name : String
  job_startdatetime : Int
  duration : Int
  job_status : String
  instruments : List String
  fields : List String
deriving DecidableEq

/-- The job dictionary produced by `query_active_jobs` for one row
(`job_enddatetime` is the computed `job_startdatetime + duration * 60`). -/
structure JobDict where
  id : Int
  job_name : String
  job_startdatetime : Int
  job_enddatetime : Int
  instruments : List String
  fields : List String
deriving DecidableEq

/-- The `WHERE j.job_startdatetime <= ? AND j.job_startdatetime +
j.duration * 60 > ?` filter of `query_active_jobs`. -/
def jobActiveAt (now : Int) (r : JobRow) : Bool :=
  r.job_startdatetime ≤ now ∧ r.job_startdatetime + r.duration * 60 > now

/-- The rows selected by `Database.query_active_jobs(now)`
(`database.py:127-156`). -/
def queryActiveRows (db : List JobRow) (now : Int) : List JobRow :=
  db.filter (jobActiveAt now)

/-- The SELECT projection of `query_active_jobs`: row → job dictionary. -/
def rowToDict (r : JobRow) : JobDict :=
  ⟨r.job_id, r.job_name, r.job_startdatetime, r.job_startdatetime + r.duration * 60,
    r.instruments, r.fields⟩

/-- `Database.query_active_jobs(now)`: the active rows projected to job
dictionaries. -/
def queryActiveJobs (db : List JobRow) (now : Int) : List JobDict :=
  (queryActiveRows db now).map rowToDict

/-- `Database.insert_data` (`database.py:106-115`): stores the job row with
`duration = int((job_enddatetime - job_startdatetime) / 60)` — the exact
quotient truncated toward zero, i.e. `Int.tdiv` — together with its
instruments and fields (`newId` is the store-assigned `lastrowid`). -/
def insertData (db : List JobRow) (newId : Int) (name : String) (startT endT : Int)
    (instrs flds : List String) : List JobRow :=
  db ++ [⟨newId, name, startT, Int.tdiv (endT - startT) 60, "NOT STARTED", instrs, flds⟩]

/-- The reconciler's job cache and its refresh timestamp. -/
structure CacheState where
  job_cache : List (Int × JobDict)
  last_cache_update : Int
deriving DecidableEq

/-- `{job['id']: job for job in jobs}`: dictionary built in list order. -/
def dictOfJobs (jobs : List JobDict) : List (Int × JobDict) :=
  jobs.foldl (fun d j => dInsert j.id j d) []

/-- `SubscriptionHandler.update_job_cache` (`subscriptionhandler.py:241-246`):
replaces the cache with the active-job query result keyed by id and records
the refresh time. -/
def update_job_cache (db : List JobRow) (_cs : CacheState) (now : Int) : CacheState :=
  ⟨dictOfJobs (queryActiveJobs db now), now⟩

/-- `Database.check_update_flag` (`database.py:178-186`): the metadata table
as `(key, value)` rows; the code evaluates `result[0][0] == 1 if result
else False` on the rows whose key is `'update_flag'`. -/
def checkUpdateFlag (metadata : List (String × Int)) : Bool :=
  match (metadata.filter (fun r => r.1 = "update_flag")).map Prod.snd with
  | [] => false
  | v :: _ => v = 1

/-! ### Dictionary lemmas -/

theorem dGet?_append {K V : Type} [DecidableEq K] (k : K) (a b : List (K × V)) :
    dGet? k (a ++ b) = ((dGet? k a).rec (dGet? k b) (fun v => some v)) := by
  induction a with
  | nil => simp [dGet?]
  | cons p rest ih =>
    by_cases h : k = p.1
    · simp [dGet?, h]
    · simpa [dGet?, h] using ih

theorem dGet?_append_left {K V : Type} [DecidableEq K] {k : K} {a : List (K × V)}
    (b : List (K × V)) {v : V} (h : dGet? k a = some v) :
    dGet? k (a ++ b) = some v := by
  rw [dGet?_append, h]

theorem dGet?_append_right {K V : Type} [DecidableEq K] {k : K} {a : List (K × V)}
    (b : List (K × V)) (h : dGet? k a = none) :
    dGet? k (a ++ b) = dGet? k b := by
  rw [dGet?_append, h]

theorem dGet?_isSome_iff {K V : Type} [DecidableEq K] {k : K} {d : List (K × V)} :
    (dGet? k d).isSome = true ↔ k ∈ dKeys d := by
  induction d with
  | nil => simp [dGet?, dKeys]
  | cons p rest ih =>
    by_cases h : k = p.1
    · simp [dGet?, dKeys, h]
    · simp [dGet?, dKeys, h, ih, Ne.symm h]

theorem dGet?_eq_some_mem {K V : Type} [DecidableEq K] {k : K} {d : List (K × V)} {v : V}
    (h : dGet? k d = some v) : (k, v) ∈ d := by
  induction d with
  | nil => simp [dGet?] at h
  | cons p rest ih =>
    by_cases hk : k = p.1
    · rw [dGet?, if_pos hk] at h
      cases h
      subst hk
      simp
    · rw [dGet?, if_neg hk] at h
      exact List.mem_cons_of_mem _ (ih h)

theorem dInsert_of_absent {K V : Type} [DecidableEq K] {k : K} {d : List (K × V)} (v : V)
    (h : dGet? k d = none) : dInsert k v d = d ++ [(k, v)] := by
  induction d with
  | nil => rfl
  | cons p rest ih =>
    by_cases hk : k = p.1
    · rw [dGet?, if_pos hk] at h
      cases h
    · rw [dGet?, if_neg hk] at h
      simp [dInsert, Ne.symm hk, ih h]

theorem mem_dKeys_dInsert {K V : Type} [DecidableEq K] {k' k : K} {v : V}
    {d : List (K × V)} : k' ∈ dKeys (dInsert k v d) ↔ k' = k ∨ k' ∈ dKeys d := by
  induction d with
  | nil => simp [dInsert, dKeys]
  | cons p rest ih =>
    by_cases hk : p.1 = k
    · rw [dInsert, if_pos hk, dKeys, List.map_cons, dKeys, List.map_cons]
      simp only [List.mem_cons]
      rw [hk]
      tauto
    · rw [dInsert, if_neg hk, dKeys, List.map_cons, dKeys, List.map_cons]
      simp only [List.mem_cons]
      rw [dKeys] at ih
      rw [ih]
      tauto

theorem dKeys_nodup_dInsert {K V : Type} [DecidableEq K] {k : K} {v : V}
    {d : List (K × V)} (h : (dKeys d).Nodup) : (dKeys (dInsert k v d)).Nodup := by
  induction d with
  | nil => simp [dInsert, dKeys]
  | cons p rest ih =>
    rw [dKeys, List.map_cons, List.nodup_cons] at h
    by_cases hk : p.1 = k
    · rw [dInsert, if_pos hk]
      rw [dKeys, List.map_cons, List.nodup_cons]
      exact ⟨hk ▸ h.1, h.2⟩
    · rw [dInsert, if_neg hk]
      rw [dKeys, List.map_cons, List.nodup_cons]
      constructor
      · intro hmem
        rcases mem_dKeys_dInsert.mp hmem with h1 | h1
        · exact hk h1
        · exact h.1 h1
      · exact ih h.2

theorem dErase_sublist {K V : Type} [DecidableEq K] (k : K) (d : List (K × V)) :
    (dErase k d).Sublist d := by
  induction d with
  | nil => simp [dErase]
  | cons p rest ih =>
    by_cases hk : p.1 = k
    · rw [dErase, if_pos hk]
      exact (List.sublist_cons_self p rest)
    · rw [dErase, if_neg hk]
      exact List.Sublist.cons₂ p ih

theorem dErase_subset {K V : Type} [DecidableEq K] {k : K} {d : List (K × V)} {p : K × V}
    (h : p ∈ dErase k d) : p ∈ d :=
  (dErase_sublist k d).subset h

theorem dKeys_nodup_dErase {K V : Type} [DecidableEq K] (k : K) {d : List (K × V)}
    (h : (dKeys d).Nodup) : (dKeys (dErase k d)).Nodup :=
  ((dErase_sublist k d).map Prod.fst).nodup h

theorem mem_dErase_of_ne {K V : Type} [DecidableEq K] {k : K} {d : List (K × V)} {p : K × V}
    (hp : p ∈ d) (hne : p.1 ≠ k) : p ∈ dErase k d := by
  induction d with
  | nil => simp at hp
  | cons q rest ih =>
    by_cases hq : q.1 = k
    · rw [dErase, if_pos hq]
      rcases List.mem_cons.mp hp with h1 | h1
      · exact absurd (h1 ▸ hq) hne
      · exact h1
    · rw [dErase, if_neg hq]
      rcases List.mem_cons.mp hp with h1 | h1
      · exact h1 ▸ List.mem_cons_self _ _
      · exact List.mem_cons_of_mem _ (ih h1)

theorem dGet?_dErase_ne {K V : Type} [DecidableEq K] {k' k : K} (d : List (K × V))
    (h : k' ≠ k) : dGet? k' (dErase k d) = dGet? k' d := by
  induction d with
  | nil => rfl
  | cons p rest ih =>
    by_cases hk : p.1 = k
    · rw [dErase, if_pos hk, dGet?, if_neg (hk ▸ h)]
    · by_cases hk' : k' = p.1
      · rw [dErase, if_neg hk, dGet?, if_pos hk', dGet?, if_pos hk']
      · rw [dErase, if_neg hk, dGet?, if_neg hk', dGet?, if_neg hk']
        exact ih

theorem not_mem_dKeys_dErase {K V : Type} [DecidableEq K] {k : K} {d : List (K × V)}
    (h : (dKeys d).Nodup) : k ∉ dKeys (dErase k d) := by
  induction d with
  | nil => simp [dErase, dKeys]
  | cons p rest ih =>
    rw [dKeys, List.map_cons, List.nodup_cons] at h
    by_cases hk : p.1 = k
    · rw [dErase, if_pos hk]
      exact hk ▸ h.1
    · rw [dErase, if_neg hk]
      rw [dKeys, List.map_cons]
      intro hmem
      rcases List.mem_cons.mp hmem with h1 | h1
      · exact hk h1.symm
      · exact ih h.2 h1

theorem dGet?_dErase_self {K V : Type} [DecidableEq K] {k : K} {d : List (K × V)}
    (h : (dKeys d).Nodup) : dGet? k (dErase k d) = none := by
  by_cases hs : (dGet? k (dErase k d)).isSome
  · exact absurd (dGet?_isSome_iff.mp hs) (not_mem_dKeys_dErase h)
  · exact Option.not_isSome_iff_eq_none.mp hs

theorem dErase_of_absent {K V : Type} [DecidableEq K] {k : K} {d : List (K × V)}
    (h : k ∉ dKeys d) : dErase k d = d := by
  induction d with
  | nil => rfl
  | cons p rest ih =>
    rw [dKeys, List.map_cons] at h
    simp only [List.mem_cons, not_or] at h
    rw [dErase, if_neg (fun hc => h.1 hc.symm)]
    rw [dKeys] at ih
    rw [ih h.2]

theorem dGet?_value_unique {K V : Type} [DecidableEq K] {k : K} {d : List (K × V)}
    {v w : V} (hn : (dKeys d).Nodup) (h : dGet? k d = some v) (hm : (k, w) ∈ d) :
    w = v := by
  induction d with
  | nil => simp at hm
  | cons p rest ih =>
    rw [dKeys, List.map_cons, List.nodup_cons] at hn
    by_cases hk : k = p.1
    · rw [dGet?, if_pos hk] at h
      rcases List.mem_cons.mp hm with h1 | h1
      · have : p.2 = w := (congrArg Prod.snd h1).symm
        rw [this] at h
        exact Option.some_inj.mp h
      · have : k ∈ List.map Prod.fst rest := List.mem_map_of_mem Prod.fst h1
        exact absurd (hk ▸ this) hn.1
    · rw [dGet?, if_neg hk] at h
      rcases List.mem_cons.mp hm with h1 | h1
      · exact absurd (congrArg Prod.fst h1) hk
      · exact ih hn.2 h h1

/-! ### Sequential processing lemmas -/

theorem runJobs_nil {α : Type} (f : α → HandlerState → OpOut) (s : HandlerState) :
    runJobs f [] s = ⟨s, [], true⟩ := rfl

theorem runJobs_cons {α : Type} (f : α → HandlerState → OpOut) (x : α) (xs : List α)
    (s : HandlerState) :
    runJobs f (x :: xs) s =
      if (f x s).ok then
        ⟨(runJobs f xs (f x s).st).st, (f x s).calls ++ (runJobs f xs (f x s).st).calls,
          (runJobs f xs (f x s).st).ok⟩
      else f x s := by
  rw [runJobs]

theorem runJobs_skip {α : Type} {f : α → HandlerState → OpOut} {l : List α}
    {s : HandlerState} (h : ∀ x ∈ l, f x s = ⟨s, [], true⟩) :
    runJobs f l s = ⟨s, [], true⟩ := by
  induction l with
  | nil => rfl
  | cons x xs ih =>
    rw [runJobs_cons, h x (List.mem_cons_self x xs)]
    simp only [if_pos]
    rw [ih (fun y hy => h y (List.mem_cons_of_mem x hy))]
    rfl

theorem runJobs_preserves {α : Type} {f : α → HandlerState → OpOut}
    (P : HandlerState → Prop) (hf : ∀ x st, P st → P ((f x st).st)) :
    ∀ (l : List α) (s : HandlerState), P s → P ((runJobs f l s).st) := by
  intro l
  induction l with
  | nil => intro s hs; exact hs
  | cons x xs ih =>
    intro s hs
    rw [runJobs_cons]
    by_cases hok : (f x s).ok
    · rw [if_pos hok]
      exact ih _ (hf x s hs)
    · rw [if_neg hok]
      exact hf x s hs

theorem runJobs_append_ok {α : Type} {f : α → HandlerState → OpOut} {a : List α}
    (b : List α) {s : HandlerState} (h : (runJobs f a s).ok = true) :
    runJobs f (a ++ b) s =
      ⟨(runJobs f b (runJobs f a s).st).st,
        (runJobs f a s).calls ++ (runJobs f b (runJobs f a s).st).calls,
        (runJobs f b (runJobs f a s).st).ok⟩ := by
  induction a generalizing s with
  | nil => simp [runJobs_nil]
  | cons x xs ih =>
    rw [runJobs_cons] at h
    by_cases hok : (f x s).ok
    · rw [if_pos hok] at h
      simp only at h
      rw [List.cons_append, runJobs_cons, if_pos hok, runJobs_cons, if_pos hok, ih h]
      simp [List.append_assoc]
    · rw [if_neg hok] at h
      exact absurd h (by simpa using hok)

theorem runJobs_append_err {α : Type} {f : α → HandlerState → OpOut} {a : List α}
    (b : List α) {s : HandlerState} (h : (runJobs f a s).ok = false) :
    runJobs f (a ++ b) s = runJobs f a s := by
  induction a generalizing s with
  | nil => simp [runJobs_nil] at h
  | cons x xs ih =>
    rw [runJobs_cons] at h
    by_cases hok : (f x s).ok
    · rw [if_pos hok] at h
      simp only at h
      rw [List.cons_append, runJobs_cons, if_pos hok, runJobs_cons, if_pos hok, ih h]
    · rw [if_neg hok] at h
      rw [List.cons_append, runJobs_cons, if_neg hok, runJobs_cons, if_neg hok]

/-! ### Characterization of the start loop -/

theorem startLoop_spec (jobId : Int) (flds : List String) :
    ∀ (l : List String) (slist : List SubEntry) (owners : List (String × SubscriptionItem)),
    ∃ se oe,
      startLoop jobId flds l slist owners = (slist ++ se, owners ++ oe) ∧
      (∀ p ∈ oe, p.1 ∈ l) ∧
      (∀ i ∈ l, (dGet? i (owners ++ oe)).isSome = true) := by
  intro l
  induction l with
  | nil =>
    intro slist owners
    exact ⟨[], [], by simp [startLoop], by simp, by simp⟩
  | cons i rest ih =>
    intro slist owners
    by_cases h : (dGet? i owners).isSome
    · obtain ⟨se, oe, heq, hkeys, hall⟩ := ih slist owners
      refine ⟨se, oe, ?_, ?_, ?_⟩
      · rw [startLoop, if_pos h, heq]
      · exact fun p hp => List.mem_cons_of_mem _ (hkeys p hp)
      · intro j hj
        rcases List.mem_cons.mp hj with rfl | hj
        · obtain ⟨v, hv⟩ := Option.isSome_iff_exists.mp h
          rw [dGet?_append_left oe hv]
          rfl
        · exact hall j hj
    · obtain ⟨se, oe, heq, hkeys, hall⟩ :=
        ih (slist ++ [⟨i, flds, ⟨i, jobId⟩⟩]) (owners ++ [(i, ⟨i, jobId⟩)])
      refine ⟨⟨i, flds, ⟨i, jobId⟩⟩ :: se, (i, ⟨i, jobId⟩) :: oe, ?_, ?_, ?_⟩
      · rw [startLoop, if_neg h, heq]
        simp
      · intro p hp
        rcases List.mem_cons.mp hp with rfl | hp
        · exact List.mem_cons_self _ _
        · exact List.mem_cons_of_mem _ (hkeys p hp)
      · intro j hj
        rcases List.mem_cons.mp hj with rfl | hj
        · have hj' : dGet? j owners = none := Option.not_isSome_iff_eq_none.mp h
          rw [show owners ++ (j, (⟨j, jobId⟩ : SubscriptionItem)) :: oe
                = (owners ++ [(j, (⟨j, jobId⟩ : SubscriptionItem))]) ++ oe by simp,
            dGet?_append]
          rw [dGet?_append_right [(j, (⟨j, jobId⟩ : SubscriptionItem))] hj']
          simp [dGet?]
        · have := hall j hj
          rwa [show (owners ++ [(i, (⟨i, jobId⟩ : SubscriptionItem))]) ++ oe
                = owners ++ (i, (⟨i, jobId⟩ : SubscriptionItem)) :: oe by simp] at this

/-! ### Characterization of the stop loop -/

/-- The instruments of a stopping job that no other job still references:
exactly the ones `stop_subscription` marks for unsubscribe. -/
def unsubTargets (jobId : Int) (active : List (Int × List String)) (l : List String) :
    List String :=
  l.filter (fun i => !(usedByOthers jobId i active))

theorem filterMap_congr_mem {α β : Type} {l : List α} {f g : α → Option β}
    (h : ∀ a ∈ l, f a = g a) : l.filterMap f = l.filterMap g := by
  induction l with
  | nil => rfl
  | cons a as ih =>
    rw [List.filterMap_cons, List.filterMap_cons, h a (List.mem_cons_self a as),
      ih (fun b hb => h b (List.mem_cons_of_mem a hb))]

theorem stopLoop_spec (jobId : Int) (active : List (Int × List String)) :
    ∀ (l : List String) (owners : List (String × SubscriptionItem))
      (acc : List SubscriptionItem),
    l.Nodup → (dKeys owners).Nodup →
    (∀ i ∈ l, usedByOthers jobId i active = false → (dGet? i owners).isSome = true) →
    ∃ owners',
      stopLoop jobId active l owners acc =
        (owners',
          acc ++ (unsubTargets jobId active l).filterMap (fun i => dGet? i owners),
          true) ∧
      (∀ i, dGet? i owners' =
        if i ∈ unsubTargets jobId active l then none else dGet? i owners) := by
  intro l
  induction l with
  | nil =>
    intro owners acc _ _ _
    exact ⟨owners, by simp [stopLoop, unsubTargets], by simp [unsubTargets]⟩
  | cons i rest ih =>
    intro owners acc hl hown hall
    rw [List.nodup_cons] at hl
    by_cases hu : usedByOthers jobId i active
    · have hD : unsubTargets jobId active (i :: rest) = unsubTargets jobId active rest := by
        simp [unsubTargets, hu]
      obtain ⟨owners', heq, hchar⟩ :=
        ih owners acc hl.2 hown (fun j hj => hall j (List.mem_cons_of_mem i hj))
      refine ⟨owners', ?_, ?_⟩
      · rw [stopLoop, if_pos hu, heq, hD]
      · intro j
        rw [hD]
        exact hchar j
    · have hu' : usedByOthers jobId i active = false := by simpa using hu
      obtain ⟨tok, hv⟩ :=
        Option.isSome_iff_exists.mp (hall i (List.mem_cons_self i rest) hu')
      have hD : unsubTargets jobId active (i :: rest) = i :: unsubTargets jobId active rest := by
        simp [unsubTargets, hu']
      have hsub : ∀ j ∈ unsubTargets jobId active rest, j ∈ rest :=
        fun j hj => List.mem_of_mem_filter hj
      have herase_ne : ∀ j ∈ unsubTargets jobId active rest,
          dGet? j (dErase i owners) = dGet? j owners := by
        intro j hj
        have hjr : j ∈ rest := hsub j hj
        have hne : j ≠ i := by
          intro hji
          rw [hji] at hjr
          exact hl.1 hjr
        exact dGet?_dErase_ne owners hne
      obtain ⟨owners', heq, hchar⟩ :=
        ih (dErase i owners) (acc ++ [tok]) hl.2 (dKeys_nodup_dErase i hown)
          (fun j hj hju => by
            have hne : j ≠ i := by
              intro hji
              rw [hji] at hj
              exact hl.1 hj
            rw [dGet?_dErase_ne owners hne]
            exact hall j (List.mem_cons_of_mem i hj) hju)
      refine ⟨owners', ?_, ?_⟩
      · rw [stopLoop, if_neg hu, hv]
        show stopLoop jobId active rest (dErase i owners) (acc ++ [tok]) =
          (owners',
            acc ++ (unsubTargets jobId active (i :: rest)).filterMap
              (fun j => dGet? j owners),
            true)
        rw [heq, hD, List.filterMap_cons, hv]
        rw [filterMap_congr_mem herase_ne]
        simp
      · intro j
        rw [hD]
        by_cases hji : j = i
        · subst hji
          rw [if_pos (List.mem_cons_self j _), hchar j]
          have : j ∉ unsubTargets jobId active rest := fun hc => hl.1 (hsub j hc)
          rw [if_neg this]
          exact dGet?_dErase_self hown
        · rw [hchar j]
          by_cases hjD : j ∈ unsubTargets jobId active rest
          · rw [if_pos hjD, if_pos (List.mem_cons_of_mem i hjD)]
          · rw [if_neg hjD, if_neg (by
              intro hc
              rcases List.mem_cons.mp hc with h1 | h1
              · exact hji h1
              · exact hjD h1)]
            exact dGet?_dErase_ne owners hji

/-! ### Branch facts about the operations -/

theorem startSubscription_ok_active {fm : FeedModel} {job : Job} {s : HandlerState}
    (h : (startSubscription fm job s).ok = true) :
    (startSubscription fm job s).st.active_subscriptions =
      dInsert job.id job.instruments s.active_subscriptions := by
  by_cases h1 : job.instruments.isEmpty
  · simp [startSubscription, h1]
  · by_cases h2 : fm.subFails (startLoop job.id job.fields job.instruments
        s.subscription_list s.active_instruments).1
    · simp [startSubscription, h1, h2] at h
    · simp [startSubscription, h1, h2]

theorem startSubscription_active_cases (fm : FeedModel) (job : Job) (s : HandlerState) :
    (startSubscription fm job s).st.active_subscriptions =
        dInsert job.id job.instruments s.active_subscriptions ∨
      (startSubscription fm job s).st.active_subscriptions = s.active_subscriptions := by
  by_cases h1 : job.instruments.isEmpty
  · left
    simp [startSubscription, h1]
  · by_cases h2 : fm.subFails (startLoop job.id job.fields job.instruments
        s.subscription_list s.active_instruments).1
    · right
      simp [startSubscription, h1, h2]
    · left
      simp [startSubscription, h1, h2]

theorem stopSubscription_of_absent (fm : FeedModel) (jobId : Int) (s : HandlerState)
    (h : dGet? jobId s.active_subscriptions = none) :
    stopSubscription fm jobId s = ⟨s, [], true⟩ := by
  simp [stopSubscription, h]

theorem stopSubscription_active_cases (fm : FeedModel) (jobId : Int) (s : HandlerState) :
    (stopSubscription fm jobId s).st.active_subscriptions =
        dErase jobId s.active_subscriptions ∨
      (stopSubscription fm jobId s).st.active_subscriptions = s.active_subscriptions := by
  rcases hA : dGet? jobId s.active_subscriptions with _ | l
  · right
    rw [stopSubscription_of_absent fm jobId s hA]
  · rcases hB : stopLoop jobId s.active_subscriptions l s.active_instruments [] with
      ⟨ow, tu, okb⟩
    cases okb
    · right
      simp [stopSubscription, hA, hB]
    · by_cases h1 : tu.isEmpty
      · left
        simp [stopSubscription, hA, hB, h1]
      · by_cases h2 : fm.unsubFails tu
        · right
          simp [stopSubscription, hA, hB, h1, h2]
        · left
          simp [stopSubscription, hA, hB, h1, h2]

theorem stopSubscription_ok_active {fm : FeedModel} {jobId : Int} {s : HandlerState}
    (h : (stopSubscription fm jobId s).ok = true) :
    (stopSubscription fm jobId s).st.active_subscriptions =
      dErase jobId s.active_subscriptions := by
  rcases hA : dGet? jobId s.active_subscriptions with _ | l
  · rw [stopSubscription_of_absent fm jobId s hA]
    have hnk : jobId ∉ dKeys s.active_subscriptions := by
      intro hc
      rw [← dGet?_isSome_iff, hA] at hc
      simp at hc
    rw [dErase_of_absent hnk]
  · rcases hB : stopLoop jobId s.active_subscriptions l s.active_instruments [] with
      ⟨ow, tu, okb⟩
    cases okb
    · simp [stopSubscription, hA, hB] at h
    · by_cases h1 : tu.isEmpty
      · simp [stopSubscription, hA, hB, h1]
      · by_cases h2 : fm.unsubFails tu
        · simp [stopSubscription, hA, hB, h1, h2] at h
        · simp [stopSubscription, hA, hB, h1, h2]

theorem stopSubscription_spec (fm : FeedModel) (jobId : Int) (s : HandlerState)
    (l : List String)
    (hA : dGet? jobId s.active_subscriptions = some l)
    (hl : l.Nodup)
    (hOwn : (dKeys s.active_instruments).Nodup)
    (hIn : ∀ i ∈ l, usedByOthers jobId i s.active_subscriptions = false →
      (dGet? i s.active_instruments).isSome = true)
    (hUn : fm.unsubFails ((unsubTargets jobId s.active_subscriptions l).filterMap
      (fun i => dGet? i s.active_instruments)) = false) :
    (stopSubscription fm jobId s).ok = true ∧
    (stopSubscription fm jobId s).st.subscription_list = s.subscription_list ∧
    (stopSubscription fm jobId s).st.active_subscriptions =
      dErase jobId s.active_subscriptions ∧
    (∀ i, dGet? i (stopSubscription fm jobId s).st.active_instruments =
      if i ∈ unsubTargets jobId s.active_subscriptions l then none
      else dGet? i s.active_instruments) ∧
    (stopSubscription fm jobId s).calls =
      (if (unsubTargets jobId s.active_subscriptions l).filterMap
            (fun i => dGet? i s.active_instruments) = [] then []
        else [FeedCall.unsubscribe ((unsubTargets jobId s.active_subscriptions l).filterMap
          (fun i => dGet? i s.active_instruments))]) := by
  obtain ⟨owners', heq, hchar⟩ := stopLoop_spec jobId s.active_subscriptions l
    s.active_instruments [] hl hOwn hIn
  rw [List.nil_append] at heq
  by_cases hE : ((unsubTargets jobId s.active_subscriptions l).filterMap
      (fun i => dGet? i s.active_instruments)) = []
  · have hEmpty : ((unsubTargets jobId s.active_subscriptions l).filterMap
        (fun i => dGet? i s.active_instruments)).isEmpty = true := by
      rw [hE]
      rfl
    refine ⟨?_, ?_, ?_, ?_, ?_⟩ <;>
      simp [stopSubscription, hA, heq, hEmpty, hE, hchar]
  · have hEmpty : ((unsubTargets jobId s.active_subscriptions l).filterMap
        (fun i => dGet? i s.active_instruments)).isEmpty = false := by
      rcases hx : (unsubTargets jobId s.active_subscriptions l).filterMap
          (fun i => dGet? i s.active_instruments) with _ | ⟨a, as⟩
      · exact absurd hx hE
      · rfl
    refine ⟨?_, ?_, ?_, ?_, ?_⟩ <;>
      simp [stopSubscription, hA, heq, hEmpty, hE, hUn, hchar]

/-! ### Tick-level lemmas -/

theorem actStep_active_cases (fm : FeedModel) (p : Int × Job) (st : HandlerState) :
    (actStep fm p st).st.active_subscriptions =
        dInsert p.2.id p.2.instruments st.active_subscriptions ∨
      (actStep fm p st).st.active_subscriptions = st.active_subscriptions := by
  unfold actStep
  by_cases h : (dGet? p.1 st.active_subscriptions).isSome
  · right
    rw [if_pos h]
  · rw [if_neg h]
    exact startSubscription_active_cases fm p.2 st

theorem actStep_preserves_mem (fm : FeedModel) (p : Int × Job) (st : HandlerState)
    (k : Int) (h : k ∈ dKeys st.active_subscriptions) :
    k ∈ dKeys (actStep fm p st).st.active_subscriptions := by
  rcases actStep_active_cases fm p st with hc | hc <;> rw [hc]
  · exact mem_dKeys_dInsert.mpr (Or.inr h)
  · exact h

theorem act_establishes (fm : FeedModel) :
    ∀ (cache : List (Int × Job)) (st : HandlerState),
    (∀ p ∈ cache, p.2.id = p.1) →
    (runJobs (actStep fm) cache st).ok = true →
    ∀ p ∈ cache, p.1 ∈ dKeys (runJobs (actStep fm) cache st).st.active_subscriptions := by
  intro cache
  induction cache with
  | nil =>
    intro st _ _ p hp
    exact absurd hp (List.not_mem_nil p)
  | cons q rest ih =>
    intro st hid hok p hp
    rw [runJobs_cons] at hok ⊢
    by_cases h1 : (actStep fm q st).ok
    · rw [if_pos h1] at hok ⊢
      dsimp only at hok ⊢
      rcases List.mem_cons.mp hp with rfl | hp'
      · have hq : p.1 ∈ dKeys (actStep fm p st).st.active_subscriptions := by
          unfold actStep at h1 ⊢
          by_cases h2 : (dGet? p.1 st.active_subscriptions).isSome
          · rw [if_pos h2]
            exact dGet?_isSome_iff.mp h2
          · rw [if_neg h2] at h1 ⊢
            rw [startSubscription_ok_active h1]
            have hpid : p.2.id = p.1 := hid p (List.mem_cons_self p rest)
            rw [hpid]
            exact mem_dKeys_dInsert.mpr (Or.inl rfl)
        exact runJobs_preserves (fun s' => p.1 ∈ dKeys s'.active_subscriptions)
          (fun x s' hx => actStep_preserves_mem fm x s' p.1 hx) rest _ hq
      · exact ih _ (fun r hr => hid r (List.mem_cons_of_mem q hr)) hok p hp'
    · rw [if_neg h1] at hok
      exact absurd hok (by simpa using h1)

theorem act_preserves_nodup (fm : FeedModel) (cache : List (Int × Job)) (st : HandlerState)
    (h : (dKeys st.active_subscriptions).Nodup) :
    (dKeys (runJobs (actStep fm) cache st).st.active_subscriptions).Nodup :=
  runJobs_preserves (fun s' => (dKeys s'.active_subscriptions).Nodup)
    (fun x s' hx => by
      rcases actStep_active_cases fm x s' with hc | hc <;> rw [hc]
      · exact dKeys_nodup_dInsert hx
      · exact hx) cache st h

theorem deactStep_active_cases (fm : FeedModel) (cache : List (Int × Job)) (jid : Int)
    (st : HandlerState) :
    (deactStep fm cache jid st).st.active_subscriptions =
        dErase jid st.active_subscriptions ∨
      (deactStep fm cache jid st).st.active_subscriptions = st.active_subscriptions := by
  unfold deactStep
  by_cases h : (dGet? jid cache).isSome
  · right
    rw [if_pos h]
  · rw [if_neg h]
    exact stopSubscription_active_cases fm jid st

theorem mem_dKeys_of_dErase {K V : Type} [DecidableEq K] {k0 k : K} {d : List (K × V)}
    (h : k ∈ dKeys (dErase k0 d)) : k ∈ dKeys d :=
  ((dErase_sublist k0 d).map Prod.fst).subset h

theorem deact_preserves_cache_mem (fm : FeedModel) (cache : List (Int × Job))
    (ks : List Int) (st : HandlerState) (k : Int)
    (hk : (dGet? k cache).isSome = true) (h : k ∈ dKeys st.active_subscriptions) :
    k ∈ dKeys (runJobs (deactStep fm cache) ks st).st.active_subscriptions :=
  runJobs_preserves (fun s' => k ∈ dKeys s'.active_subscriptions)
    (fun jid s' hx => by
      unfold deactStep
      by_cases h2 : (dGet? jid cache).isSome
      · rw [if_pos h2]
        exact hx
      · rw [if_neg h2]
        rcases stopSubscription_active_cases fm jid s' with hc | hc <;> rw [hc]
        · have hne : k ≠ jid := by
            intro he
            rw [he] at hk
            exact h2 hk
          have hx' : k ∈ dKeys s'.active_subscriptions := hx
          have hsome : (dGet? k (dErase jid s'.active_subscriptions)).isSome = true := by
            rw [dGet?_dErase_ne _ hne]
            exact dGet?_isSome_iff.mpr hx'
          exact dGet?_isSome_iff.mp hsome
        · exact hx) ks st h

theorem deact_clears (fm : FeedModel) (cache : List (Int × Job)) :
    ∀ (ks : List Int) (st : HandlerState),
    (∀ k ∈ dKeys st.active_subscriptions, k ∈ ks ∨ (dGet? k cache).isSome = true) →
    (dKeys st.active_subscriptions).Nodup →
    (runJobs (deactStep fm cache) ks st).ok = true →
    ∀ k ∈ dKeys (runJobs (deactStep fm cache) ks st).st.active_subscriptions,
      (dGet? k cache).isSome = true := by
  intro ks
  induction ks with
  | nil =>
    intro st hcov _ _ k hk
    rw [runJobs_nil] at hk
    dsimp only at hk
    rcases hcov k hk with h1 | h1
    · exact absurd h1 (List.not_mem_nil _)
    · exact h1
  | cons k0 rest ih =>
    intro st hcov hnd hok k hk
    rw [runJobs_cons] at hok hk
    by_cases h1 : (deactStep fm cache k0 st).ok
    · rw [if_pos h1] at hok hk
      dsimp only at hok hk
      refine ih (deactStep fm cache k0 st).st ?_ ?_ hok k hk
      · intro k' hk'
        by_cases h2 : (dGet? k0 cache).isSome
        · have hst : (deactStep fm cache k0 st).st = st := by
            unfold deactStep
            rw [if_pos h2]
          rw [hst] at hk'
          rcases hcov k' hk' with h3 | h3
          · rcases List.mem_cons.mp h3 with rfl | h4
            · exact Or.inr h2
            · exact Or.inl h4
          · exact Or.inr h3
        · have hst : (deactStep fm cache k0 st).st.active_subscriptions =
              dErase k0 st.active_subscriptions := by
            unfold deactStep at h1 ⊢
            rw [if_neg h2] at h1 ⊢
            exact stopSubscription_ok_active h1
          rw [hst] at hk'
          have hk'' : k' ∈ dKeys st.active_subscriptions := mem_dKeys_of_dErase hk'
          have hne : k' ≠ k0 := by
            intro he
            rw [he] at hk'
            exact not_mem_dKeys_dErase hnd hk'
          rcases hcov k' hk'' with h3 | h3
          · rcases List.mem_cons.mp h3 with h4 | h4
            · exact absurd h4 hne
            · exact Or.inl h4
          · exact Or.inr h3
      · rcases deactStep_active_cases fm cache k0 st with hc | hc <;> rw [hc]
        · exact dKeys_nodup_dErase k0 hnd
        · exact hnd
    · rw [if_neg h1] at hok
      exact absurd hok (by simpa using h1)

theorem tick_eq_ok {fm : FeedModel} {cache : List (Int × Job)} {s : HandlerState}
    (h : (runJobs (actStep fm) cache s).ok = true) :
    tick fm cache s =
      ⟨(runJobs (deactStep fm cache)
          (dKeys (runJobs (actStep fm) cache s).st.active_subscriptions)
          (runJobs (actStep fm) cache s).st).st,
        (runJobs (actStep fm) cache s).calls ++
          (runJobs (deactStep fm cache)
            (dKeys (runJobs (actStep fm) cache s).st.active_subscriptions)
            (runJobs (actStep fm) cache s).st).calls,
        (runJobs (deactStep fm cache)
          (dKeys (runJobs (actStep fm) cache s).st.active_subscriptions)
          (runJobs (actStep fm) cache s).st).ok⟩ := by
  simp only [tick]
  rw [if_pos h]

theorem tick_eq_err {fm : FeedModel} {cache : List (Int × Job)} {s : HandlerState}
    (h : (runJobs (actStep fm) cache s).ok = false) :
    tick fm cache s = runJobs (actStep fm) cache s := by
  simp only [tick]
  rw [if_neg (by simp [h])]

theorem tick_noop (fm : FeedModel) (cache : List (Int × Job)) (s1 : HandlerState)
    (hact : ∀ p ∈ cache, (dGet? p.1 s1.active_subscriptions).isSome = true)
    (hdeact : ∀ k ∈ dKeys s1.active_subscriptions, (dGet? k cache).isSome = true) :
    tick fm cache s1 = ⟨s1, [], true⟩ := by
  have h1 : runJobs (actStep fm) cache s1 = ⟨s1, [], true⟩ :=
    runJobs_skip (fun p hp => by
      unfold actStep
      rw [if_pos (hact p hp)])
  have h2 : runJobs (deactStep fm cache) (dKeys s1.active_subscriptions) s1 =
      ⟨s1, [], true⟩ :=
    runJobs_skip (fun k hk => by
      unfold deactStep
      rw [if_pos (hdeact k hk)])
  rw [tick_eq_ok (by rw [h1])]
  rw [h1]
  dsimp only
  rw [h2]
  rfl

/-! ### Registry invariant lemmas -/

theorem usedByOthers_iff {jobId : Int} {i : String} {active : List (Int × List String)} :
    usedByOthers jobId i active = true ↔ ∃ p ∈ active, p.1 ≠ jobId ∧ i ∈ p.2 := by
  simp [usedByOthers]

theorem startSubscription_owners (fm : FeedModel) (job : Job) (s : HandlerState) :
    (startSubscription fm job s).st.active_instruments =
      (startLoop job.id job.fields job.instruments
        s.subscription_list s.active_instruments).2 := by
  by_cases h1 : job.instruments.isEmpty
  · simp [startSubscription, h1]
  · by_cases h2 : fm.subFails (startLoop job.id job.fields job.instruments
        s.subscription_list s.active_instruments).1
    · simp [startSubscription, h1, h2]
    · simp [startSubscription, h1, h2]

theorem regInv_initial : regInv initialState := by
  intro i
  simp [initialState, dGet?]

theorem regInv_start_preserved (fm : FeedModel) (job : Job) (s : HandlerState)
    (hinv : regInv s) (hfresh : dGet? job.id s.active_subscriptions = none)
    (hok : (startSubscription fm job s).ok = true) :
    regInv (startSubscription fm job s).st := by
  obtain ⟨se, oe, heq, hkeys, hall⟩ := startLoop_spec job.id job.fields job.instruments
    s.subscription_list s.active_instruments
  have howners : (startSubscription fm job s).st.active_instruments =
      s.active_instruments ++ oe := by
    rw [startSubscription_owners, heq]
  have hactive : (startSubscription fm job s).st.active_subscriptions =
      s.active_subscriptions ++ [(job.id, job.instruments)] := by
    rw [startSubscription_ok_active hok, dInsert_of_absent _ hfresh]
  intro i
  rw [howners, hactive]
  constructor
  · intro hi
    rcases hx : dGet? i s.active_instruments with _ | tok
    · rw [dGet?_append_right oe hx] at hi
      have hioe : i ∈ dKeys oe := by
        have h' : (dGet? i oe).isSome = true := hi
        induction oe with
        | nil => simp [dGet?] at h'
        | cons q qs _ => exact dGet?_isSome_iff.mp h'
      obtain ⟨p, hp, hpi⟩ := List.mem_map.mp hioe
      have hins : i ∈ job.instruments := by
        rw [← hpi]
        exact hkeys p hp
      exact ⟨(job.id, job.instruments), List.mem_append_right _ (List.mem_singleton.mpr rfl),
        hins⟩
    · have hsome : (dGet? i s.active_instruments).isSome = true := by
        rw [hx]
        rfl
      obtain ⟨p, hp, hip⟩ := (hinv i).mp hsome
      exact ⟨p, List.mem_append_left _ hp, hip⟩
  · rintro ⟨p, hp, hip⟩
    rcases List.mem_append.mp hp with hp1 | hp2
    · have hsome : (dGet? i s.active_instruments).isSome = true := (hinv i).mpr ⟨p, hp1, hip⟩
      obtain ⟨v, hv⟩ := Option.isSome_iff_exists.mp hsome
      rw [dGet?_append_left oe hv]
      rfl
    · have hpe : p = (job.id, job.instruments) := List.mem_singleton.mp hp2
      rw [hpe] at hip
      exact hall i hip

theorem regInv_stop_preserved (fm : FeedModel) (jobId : Int) (s : HandlerState)
    (hinv : regInv s)
    (hnd : (dKeys s.active_subscriptions).Nodup)
    (hOwn : (dKeys s.active_instruments).Nodup)
    (hlnd : ∀ l, dGet? jobId s.active_subscriptions = some l → l.Nodup)
    (hok : (stopSubscription fm jobId s).ok = true) :
    regInv (stopSubscription fm jobId s).st := by
  rcases hA : dGet? jobId s.active_subscriptions with _ | l
  · rw [stopSubscription_of_absent fm jobId s hA]
    exact hinv
  · have hl := hlnd l hA
    have hIn : ∀ i ∈ l, usedByOthers jobId i s.active_subscriptions = false →
        (dGet? i s.active_instruments).isSome = true := by
      intro i hi _
      exact (hinv i).mpr ⟨(jobId, l), dGet?_eq_some_mem hA, hi⟩
    obtain ⟨owners', heq, hchar⟩ := stopLoop_spec jobId s.active_subscriptions l
      s.active_instruments [] hl hOwn hIn
    rw [List.nil_append] at heq
    have hst : (stopSubscription fm jobId s).st =
        ⟨s.subscription_list, owners', dErase jobId s.active_subscriptions⟩ := by
      by_cases hE : ((unsubTargets jobId s.active_subscriptions l).filterMap
          (fun i => dGet? i s.active_instruments)).isEmpty
      · simp [stopSubscription, hA, heq, hE]
      · by_cases hF : fm.unsubFails ((unsubTargets jobId s.active_subscriptions l).filterMap
            (fun i => dGet? i s.active_instruments))
        · exfalso
          have hko : (stopSubscription fm jobId s).ok = false := by
            simp [stopSubscription, hA, heq, hE, hF]
          rw [hko] at hok
          exact Bool.false_ne_true hok
        · simp [stopSubscription, hA, heq, hE, hF]
    rw [hst]
    intro i
    dsimp only
    rw [hchar i]
    by_cases hiD : i ∈ unsubTargets jobId s.active_subscriptions l
    · rw [if_pos hiD]
      have hused : usedByOthers jobId i s.active_subscriptions = false :=
        Bool.not_eq_true _ ▸ (by
          have := (List.mem_filter.mp hiD).2
          simpa using this)
      constructor
      · intro hcontra
        simp at hcontra
      · rintro ⟨p, hp, hip⟩
        have hpa : p ∈ s.active_subscriptions := dErase_subset hp
        have hpne : p.1 ≠ jobId := by
          intro he
          have : p.1 ∈ dKeys (dErase jobId s.active_subscriptions) :=
            List.mem_map_of_mem Prod.fst hp
          rw [he] at this
          exact not_mem_dKeys_dErase hnd this
        have : usedByOthers jobId i s.active_subscriptions = true :=
          usedByOthers_iff.mpr ⟨p, hpa, hpne, hip⟩
        rw [hused] at this
        exact (Bool.false_ne_true this).elim
    · rw [if_neg hiD]
      constructor
      · intro hi
        obtain ⟨p, hp, hip⟩ := (hinv i).mp hi
        by_cases hpj : p.1 = jobId
        · have hpl : p.2 = l := by
            have : (p.1, p.2) ∈ s.active_subscriptions := by
              simpa using hp
            rw [hpj] at this
            exact dGet?_value_unique hnd hA this
          rw [hpl] at hip
          by_cases hu : usedByOthers jobId i s.active_subscriptions
          · obtain ⟨q, hq, hqne, hqi⟩ := usedByOthers_iff.mp hu
            exact ⟨q, mem_dErase_of_ne hq hqne, hqi⟩
          · exfalso
            apply hiD
            rw [unsubTargets, List.mem_filter]
            exact ⟨hip, by simpa using hu⟩
        · exact ⟨p, mem_dErase_of_ne hp hpj, hip⟩
      · rintro ⟨p, hp, hip⟩
        exact (hinv i).mpr ⟨p, dErase_subset hp, hip⟩

/-! ### Job-store lemmas -/

theorem mem_queryActiveRows {db : List JobRow} {now : Int} {r : JobRow} :
    r ∈ queryActiveRows db now ↔
      r ∈ db ∧ r.job_startdatetime ≤ now ∧ now < r.job_startdatetime + r.duration * 60 := by
  simp [queryActiveRows, jobActiveAt, List.mem_filter]

theorem checkUpdateFlag_no_row {md : List (String × Int)}
    (h : ∀ p ∈ md, p.1 ≠ "update_flag") : checkUpdateFlag md = false := by
  unfold checkUpdateFlag
  have hf : md.filter (fun r => r.1 = "update_flag") = [] := by
    rw [List.filter_eq_nil_iff]
    intro a ha
    simp [h a ha]
  rw [hf]
  rfl

theorem checkUpdateFlag_true_iff {md : List (String × Int)} (hnd : (dKeys md).Nodup) :
    checkUpdateFlag md = true ↔ ∃ p ∈ md, p.1 = "update_flag" ∧ p.2 = 1 := by
  unfold checkUpdateFlag
  rcases hf : md.filter (fun r => r.1 = "update_flag") with _ | ⟨q, qs⟩
  · simp only [hf, List.map_nil]
    constructor
    · intro h
      exact absurd h (by simp)
    · rintro ⟨p, hp, hk, hv⟩
      have hpf : p ∈ md.filter (fun r => r.1 = "update_flag") :=
        List.mem_filter.mpr ⟨hp, by simp [hk]⟩
      rw [hf] at hpf
      exact absurd hpf (List.not_mem_nil p)
  · have hqf : q ∈ md.filter (fun r => r.1 = "update_flag") := by
      rw [hf]
      exact List.mem_cons_self q qs
    have hq := List.mem_filter.mp hqf
    have hqk : q.1 = "update_flag" := by simpa using hq.2
    simp only [hf, List.map_cons]
    constructor
    · intro h
      exact ⟨q, hq.1, hqk, by simpa using h⟩
    · rintro ⟨p, hp, hk, hv⟩
      have hpq : p = q :=
        List.inj_on_of_nodup_map hnd hp hq.1 (by rw [hk, hqk])
      rw [← hpq]
      simpa using hv

/-! ### Claim theorems -/

/-- Claim C1 (code bug, trace at the failing input): starting job 1 and then
job 2, both with instrument set {"X"}, issues TWO feed subscribe calls whose
batch covers "X" — not exactly one, because `start_subscription` re-sends
the cumulative `_subscription_list` under the guard `if job_instruments:`
(the job's full instrument list), contradicting its own comment
`# If we added any new instruments, subscribe`.  The stop side behaves as
the claim states: stopping one job emits no unsubscribe and stopping both
unsubscribes "X" exactly once. -/
theorem start_subscription_two_subscribe_requests_for_shared_instrument :
    subscribesFor "X"
        ((startSubscription neverFails ⟨1, ["X"], ["F"]⟩ initialState).calls ++
          (startSubscription neverFails ⟨2, ["X"], ["F"]⟩
            (startSubscription neverFails ⟨1, ["X"], ["F"]⟩ initialState).st).calls) = 2 ∧
    (stopSubscription neverFails 1
        (startSubscription neverFails ⟨2, ["X"], ["F"]⟩
          (startSubscription neverFails ⟨1, ["X"], ["F"]⟩ initialState).st).st).calls = [] ∧
    (stopSubscription neverFails 2
        (stopSubscription neverFails 1
          (startSubscription neverFails ⟨2, ["X"], ["F"]⟩
            (startSubscription neverFails ⟨1, ["X"], ["F"]⟩ initialState).st).st).st).calls =
      [FeedCall.unsubscribe [⟨"X", 1⟩]] := by
  decide

/-- Claim C2 (code bug, trace at the failing input): instrument "X" already
has an owner before job 2's `start_subscription`, so per the claim no feed
subscribe call should be issued; the code nevertheless issues one, and its
batch is the cumulative subscription list carrying job 1's entry (job 1's
fields and correlation token), not the set of newly-added instruments
(which is empty). -/
theorem start_subscription_resubscribes_already_owned_instrument :
    (dGet? "X" (startSubscription neverFails ⟨1, ["X"], ["F"]⟩
        initialState).st.active_instruments).isSome = true ∧
    (startSubscription neverFails ⟨2, ["X"], ["G"]⟩
        (startSubscription neverFails ⟨1, ["X"], ["F"]⟩ initialState).st).calls =
      [FeedCall.subscribe [⟨"X", ["F"], ⟨"X", 1⟩⟩]] := by
  decide

/-- Claim C3 counterexample: the stored duration is in minutes, not seconds.
The row with `job_startdatetime = 0` and stored `duration = 1` is returned
by the active-job query at `now = 30`, although `start ≤ now < start +
duration` read with the stored value as seconds (`30 < 0 + 1`) is false. -/
theorem query_active_jobs_window_not_stored_seconds :
    (⟨1, "j", 0, 1, "NOT STARTED", [], []⟩ : JobRow) ∈
        queryActiveRows [⟨1, "j", 0, 1, "NOT STARTED", [], []⟩] 30 ∧
      ¬((0 : Int) ≤ 30 ∧ (30 : Int) < 0 + 1) := by
  decide

/-- Claim C3 (amended): `query_active_jobs(now)` returns exactly the stored
rows with `start ≤ now < start + 60·duration`, where `duration` is the
stored value in minutes; `update_job_cache` replaces the cache wholesale
(the result is independent of the previous cache state) with those jobs
keyed by id, a job whose window has ended (`now ≥ start + 60·duration`)
does not appear, and the refresh timestamp is recorded. -/
theorem query_active_jobs_window_minutes_and_cache_refresh
    (db : List JobRow) (now : Int) (cs : CacheState) :
    (∀ r : JobRow, r ∈ queryActiveRows db now ↔
      r ∈ db ∧ r.job_startdatetime ≤ now ∧
        now < r.job_startdatetime + r.duration * 60) ∧
    (update_job_cache db cs now).job_cache = dictOfJobs (queryActiveJobs db now) ∧
    (∀ cs' : CacheState, update_job_cache db cs now = update_job_cache db cs' now) ∧
    (update_job_cache db cs now).last_cache_update = now ∧
    (∀ r ∈ db, r.job_startdatetime + r.duration * 60 ≤ now →
      r ∉ queryActiveRows db now) := by
  refine ⟨fun r => mem_queryActiveRows, rfl, fun _ => rfl, rfl, ?_⟩
  intro r _ hend hmem
  have h := mem_queryActiveRows.mp hmem
  omega

/-- Claim C4: for a job id present in `active_subscriptions` (with the
data-model invariants: its instrument list duplicate-free, owner keys
unique, every instrument of the job owning a token), `stop_subscription`
completes, removes exactly the job's entry from `active_subscriptions`,
removes from `instrument_owners` exactly the instruments no other job still
references, leaves every other owner entry untouched, and emits one
unsubscribe batch containing exactly the dropped instruments' tokens (no
batch when nothing is dropped). -/
theorem stop_subscription_reference_counting (jobId : Int) (s : HandlerState)
    (l : List String)
    (hA : dGet? jobId s.active_subscriptions = some l)
    (hl : l.Nodup)
    (hOwn : (dKeys s.active_instruments).Nodup)
    (hIn : ∀ i ∈ l, (dGet? i s.active_instruments).isSome = true) :
    (stopSubscription neverFails jobId s).ok = true ∧
    (stopSubscription neverFails jobId s).st.subscription_list = s.subscription_list ∧
    (stopSubscription neverFails jobId s).st.active_subscriptions =
      dErase jobId s.active_subscriptions ∧
    (∀ i, dGet? i (stopSubscription neverFails jobId s).st.active_instruments =
      if i ∈ unsubTargets jobId s.active_subscriptions l then none
      else dGet? i s.active_instruments) ∧
    (stopSubscription neverFails jobId s).calls =
      (if (unsubTargets jobId s.active_subscriptions l).filterMap
            (fun i => dGet? i s.active_instruments) = [] then []
        else [FeedCall.unsubscribe ((unsubTargets jobId s.active_subscriptions l).filterMap
          (fun i => dGet? i s.active_instruments))]) :=
  stopSubscription_spec neverFails jobId s l hA hl hOwn (fun i hi _ => hIn i hi) rfl

theorem stop_subscription_reference_counting_witness :
    (stopSubscription neverFails 1
        (⟨[], [("X", ⟨"X", 1⟩), ("Y", ⟨"Y", 1⟩)],
          [(1, ["X", "Y"]), (2, ["Y"])]⟩ : HandlerState)).ok = true ∧
    (stopSubscription neverFails 1
        (⟨[], [("X", ⟨"X", 1⟩), ("Y", ⟨"Y", 1⟩)],
          [(1, ["X", "Y"]), (2, ["Y"])]⟩ : HandlerState)).st.active_subscriptions =
      dErase 1 (⟨[], [("X", ⟨"X", 1⟩), ("Y", ⟨"Y", 1⟩)],
          [(1, ["X", "Y"]), (2, ["Y"])]⟩ : HandlerState).active_subscriptions :=
  ⟨(stop_subscription_reference_counting 1 _ ["X", "Y"] (by decide) (by decide) (by decide)
      (by decide)).1,
    (stop_subscription_reference_counting 1 _ ["X", "Y"] (by decide) (by decide) (by decide)
      (by decide)).2.2.1⟩

/-- Claim C5 counterexample: with a feed model on which subscribing "X"
raises, a tick over the cache {1 ↦ job with "X", 2 ↦ job with "Y"} aborts:
the tick ends in the exception state, job 2 is never activated and no
subscribe call for "Y" is ever issued — the failure of job 1 does abort the
processing of the remaining jobs. -/
theorem tick_failure_aborts_remaining_jobs_example :
    (tick failOnX [(1, ⟨1, ["X"], ["F"]⟩), (2, ⟨2, ["Y"], ["G"]⟩)] initialState).ok = false ∧
    dGet? 2 (tick failOnX [(1, ⟨1, ["X"], ["F"]⟩), (2, ⟨2, ["Y"], ["G"]⟩)]
        initialState).st.active_subscriptions = none ∧
    subscribesFor "Y" (tick failOnX [(1, ⟨1, ["X"], ["F"]⟩), (2, ⟨2, ["Y"], ["G"]⟩)]
        initialState).calls = 0 := by
  decide

/-- Claim C5 (amended): a failure raised while activating one job aborts the
rest of the tick.  If the activation pass reaches job `j` (cache suffix
`l2` still unprocessed) and `start_subscription(j)` raises, the tick stops
there with `j`'s exception state: the jobs of `l2` are never activated, the
whole deactivation pass never runs, and no further feed calls are issued;
since the failed job is not recorded in `active_subscriptions`, a later
tick with it still in the cache would retry it. -/
theorem tick_failure_aborts_remaining_jobs (fm : FeedModel) (l1 l2 : List (Int × Job))
    (k : Int) (j : Job) (s : HandlerState)
    (h1 : (runJobs (actStep fm) l1 s).ok = true)
    (h2 : dGet? k (runJobs (actStep fm) l1 s).st.active_subscriptions = none)
    (h3 : (startSubscription fm j (runJobs (actStep fm) l1 s).st).ok = false) :
    tick fm (l1 ++ (k, j) :: l2) s =
      ⟨(startSubscription fm j (runJobs (actStep fm) l1 s).st).st,
        (runJobs (actStep fm) l1 s).calls ++
          (startSubscription fm j (runJobs (actStep fm) l1 s).st).calls,
        false⟩ := by
  have hstep : ∀ st1 : HandlerState, dGet? k st1.active_subscriptions = none →
      actStep fm (k, j) st1 = startSubscription fm j st1 := by
    intro st1 hst1
    unfold actStep
    rw [if_neg (by simp [hst1])]
  have hrest : runJobs (actStep fm) ((k, j) :: l2) (runJobs (actStep fm) l1 s).st =
      startSubscription fm j (runJobs (actStep fm) l1 s).st := by
    rw [runJobs_cons, hstep _ h2, if_neg (by simp [h3])]
  have hfull : runJobs (actStep fm) (l1 ++ (k, j) :: l2) s =
      ⟨(startSubscription fm j (runJobs (actStep fm) l1 s).st).st,
        (runJobs (actStep fm) l1 s).calls ++
          (startSubscription fm j (runJobs (actStep fm) l1 s).st).calls,
        false⟩ := by
    rw [runJobs_append_ok ((k, j) :: l2) h1, hrest, h3]
  have hok' : (runJobs (actStep fm) (l1 ++ (k, j) :: l2) s).ok = false := by
    rw [hfull]
  rw [tick_eq_err hok', hfull]

theorem tick_failure_aborts_remaining_jobs_witness :
    tick failOnX ([] ++ (1, (⟨1, ["X"], ["F"]⟩ : Job)) :: [(2, ⟨2, ["Y"], ["G"]⟩)])
        initialState =
      ⟨(startSubscription failOnX ⟨1, ["X"], ["F"]⟩
          (runJobs (actStep failOnX) [] initialState).st).st,
        (runJobs (actStep failOnX) [] initialState).calls ++
          (startSubscription failOnX ⟨1, ["X"], ["F"]⟩
            (runJobs (actStep failOnX) [] initialState).st).calls,
        false⟩ :=
  tick_failure_aborts_remaining_jobs failOnX [] [(2, ⟨2, ["Y"], ["G"]⟩)] 1
    ⟨1, ["X"], ["F"]⟩ initialState (by decide) (by decide) (by decide)

/-- Claim C6: one reconcile step is idempotent.  For any feed model, cache
(keyed by the jobs' own ids, as `update_job_cache` builds it) and handler
state with duplicate-free job ids, if a tick completes without an
exception, running the reconcile step again with the unchanged cache issues
zero feed calls, completes, and leaves the whole handler state (including
the subscription list and the owner registry) unchanged. -/
theorem tick_idempotent (fm : FeedModel) (cache : List (Int × Job)) (s : HandlerState)
    (hid : ∀ p ∈ cache, p.2.id = p.1)
    (hnd : (dKeys s.active_subscriptions).Nodup)
    (hok : (tick fm cache s).ok = true) :
    tick fm cache (tick fm cache s).st = ⟨(tick fm cache s).st, [], true⟩ := by
  have h1 : (runJobs (actStep fm) cache s).ok = true := by
    cases hb : (runJobs (actStep fm) cache s).ok
    · rw [tick_eq_err hb, hb] at hok
      exact absurd hok (by simp)
    · rfl
  rw [tick_eq_ok h1] at hok ⊢
  dsimp only at hok ⊢
  have hnd1 : (dKeys (runJobs (actStep fm) cache s).st.active_subscriptions).Nodup :=
    act_preserves_nodup fm cache s hnd
  have hpres : ∀ p ∈ cache,
      p.1 ∈ dKeys (runJobs (actStep fm) cache s).st.active_subscriptions :=
    act_establishes fm cache s hid h1
  have hdeact2 : ∀ k ∈ dKeys (runJobs (deactStep fm cache)
      (dKeys (runJobs (actStep fm) cache s).st.active_subscriptions)
      (runJobs (actStep fm) cache s).st).st.active_subscriptions,
      (dGet? k cache).isSome = true :=
    deact_clears fm cache _ _ (fun k hk => Or.inl hk) hnd1 hok
  have hact2 : ∀ p ∈ cache, (dGet? p.1 (runJobs (deactStep fm cache)
      (dKeys (runJobs (actStep fm) cache s).st.active_subscriptions)
      (runJobs (actStep fm) cache s).st).st.active_subscriptions).isSome = true := by
    intro p hp
    rw [dGet?_isSome_iff]
    refine deact_preserves_cache_mem fm cache _ _ p.1 ?_ (hpres p hp)
    rw [dGet?_isSome_iff]
    exact List.mem_map_of_mem Prod.fst hp
  exact tick_noop fm cache _ hact2 hdeact2

theorem tick_idempotent_witness :
    ((tick neverFails [(1, (⟨1, ["X"], ["F"]⟩ : Job))] initialState).ok = true) ∧
    tick neverFails [(1, (⟨1, ["X"], ["F"]⟩ : Job))]
        (tick neverFails [(1, (⟨1, ["X"], ["F"]⟩ : Job))] initialState).st =
      ⟨(tick neverFails [(1, (⟨1, ["X"], ["F"]⟩ : Job))] initialState).st, [], true⟩ :=
  ⟨by decide,
    tick_idempotent neverFails [(1, ⟨1, ["X"], ["F"]⟩)] initialState (by decide) (by decide)
      (by decide)⟩

/-- Claim C7 counterexample: the invariant is not preserved by every
completed `start_subscription`.  Starting job 1 with instruments {"X"}
establishes the invariant, but a second completed `start_subscription` for
the same job id with instruments {"Y"} overwrites the job's entry in
`active_subscriptions` while "X" stays in `_active_instruments`, so "X"
then has an owner but belongs to no job's entry. -/
theorem registry_invariant_not_preserved_on_overwrite :
    regInv (startSubscription neverFails ⟨1, ["X"], ["F"]⟩ initialState).st ∧
    ¬ regInv (startSubscription neverFails ⟨1, ["Y"], ["F"]⟩
        (startSubscription neverFails ⟨1, ["X"], ["F"]⟩ initialState).st).st := by
  constructor
  · intro i
    by_cases h : i = "X" <;>
      simp [startSubscription, startLoop, initialState, dGet?, dInsert, neverFails, h]
  · intro hinv
    obtain ⟨p, hp, hip⟩ := (hinv "X").mp (by decide)
    have hsub : (startSubscription neverFails ⟨1, ["Y"], ["F"]⟩
        (startSubscription neverFails ⟨1, ["X"], ["F"]⟩
          initialState).st).st.active_subscriptions = [(1, ["Y"])] := by
      decide
    rw [hsub] at hp
    have hpe := List.mem_singleton.mp hp
    rw [hpe] at hip
    simp at hip

/-- Claim C7 (amended): the registry-consistency invariant — an instrument
has an entry in `instrument_owners` iff some job's entry in
`job_instruments` contains it — holds for the freshly initialized handler,
is preserved by every completed `start_subscription` whose job id is not
already present in `job_instruments` (the only way the reconciler invokes
it), and is preserved by every completed `stop_subscription` (under the
data-model well-formedness of the dictionaries: duplicate-free keys and
duplicate-free per-job instrument sets). -/
theorem registry_invariant_preserved :
    regInv initialState ∧
    (∀ (fm : FeedModel) (job : Job) (s : HandlerState), regInv s →
      dGet? job.id s.active_subscriptions = none →
      (startSubscription fm job s).ok = true →
      regInv (startSubscription fm job s).st) ∧
    (∀ (fm : FeedModel) (jobId : Int) (s : HandlerState), regInv s →
      (dKeys s.active_subscriptions).Nodup →
      (dKeys s.active_instruments).Nodup →
      (∀ l, dGet? jobId s.active_subscriptions = some l → l.Nodup) →
      (stopSubscription fm jobId s).ok = true →
      regInv (stopSubscription fm jobId s).st) :=
  ⟨regInv_initial,
    fun fm job s hinv hfresh hok => regInv_start_preserved fm job s hinv hfresh hok,
    fun fm jobId s hinv hnd hOwn hlnd hok =>
      regInv_stop_preserved fm jobId s hinv hnd hOwn hlnd hok⟩

theorem registry_invariant_preserved_witness :
    regInv (startSubscription neverFails ⟨1, ["X"], ["F"]⟩ initialState).st ∧
    regInv (stopSubscription neverFails 1
      (startSubscription neverFails ⟨1, ["X"], ["F"]⟩ initialState).st).st :=
  ⟨registry_invariant_preserved.2.1 neverFails ⟨1, ["X"], ["F"]⟩ initialState
      registry_invariant_preserved.1 (by decide) (by decide),
    registry_invariant_preserved.2.2 neverFails 1
      (startSubscription neverFails ⟨1, ["X"], ["F"]⟩ initialState).st
      (registry_invariant_preserved.2.1 neverFails ⟨1, ["X"], ["F"]⟩ initialState
        registry_invariant_preserved.1 (by decide) (by decide))
      (by decide) (by decide) (by decide) (by decide)⟩

/-- Claim C8: `stop_subscription` for a job id absent from
`active_subscriptions` is a complete no-op for any feed model: it issues no
feed call, raises nothing, and returns the handler state unchanged. -/
theorem stop_subscription_noop_when_absent (fm : FeedModel) (jobId : Int)
    (s : HandlerState) (h : dGet? jobId s.active_subscriptions = none) :
    stopSubscription fm jobId s = ⟨s, [], true⟩ :=
  stopSubscription_of_absent fm jobId s h

theorem stop_subscription_noop_when_absent_witness :
    dGet? 7 (⟨[], [("X", ⟨"X", 1⟩)], [(1, ["X"])]⟩ : HandlerState).active_subscriptions =
        none ∧
    stopSubscription neverFails 7 (⟨[], [("X", ⟨"X", 1⟩)], [(1, ["X"])]⟩ : HandlerState) =
      ⟨⟨[], [("X", ⟨"X", 1⟩)], [(1, ["X"])]⟩, [], true⟩ :=
  ⟨by decide,
    stop_subscription_noop_when_absent neverFails 7
      ⟨[], [("X", ⟨"X", 1⟩)], [(1, ["X"])]⟩ (by decide)⟩

/-- Claim C9: `check_update_flag` returns `false` (rather than raising)
when the metadata table has no row keyed `'update_flag'`, and — for a
well-formed table whose keys are unique — it returns `true` iff a row with
key `'update_flag'` exists and its value equals 1. -/
theorem check_update_flag_semantics (md : List (String × Int)) :
    ((∀ p ∈ md, p.1 ≠ "update_flag") → checkUpdateFlag md = false) ∧
    ((dKeys md).Nodup →
      (checkUpdateFlag md = true ↔ ∃ p ∈ md, p.1 = "update_flag" ∧ p.2 = 1)) :=
  ⟨checkUpdateFlag_no_row, checkUpdateFlag_true_iff⟩

theorem check_update_flag_semantics_witness :
    checkUpdateFlag [("other", 1)] = false ∧
    (checkUpdateFlag [("other", 0), ("update_flag", 1)] = true ↔
      ∃ p ∈ [("other", (0 : Int)), ("update_flag", 1)],
        p.1 = "update_flag" ∧ p.2 = 1) :=
  ⟨(check_update_flag_semantics [("other", 1)]).1 (by decide),
    (check_update_flag_semantics [("other", 0), ("update_flag", 1)]).2 (by decide)⟩

/-- Claim C10: a job inserted by `insert_data` with start `S` and end `E`
(`E > S`) stores `duration = (E - S).tdiv 60` minutes — the truncated
minute count — so the active-job query treats its effective end as
`S + 60·⌊(E-S)/60⌋`: the row is active at `now` iff
`S ≤ now < S + 60·((E-S).tdiv 60)`, the effective end falls short of the
requested end by between 0 and 59 seconds, and a job shorter than 60
seconds is never returned as active at any time. -/
theorem insert_data_duration_truncation
    (db : List JobRow) (newId : Int) (name : String) (startT endT : Int)
    (instrs flds : List String) (now : Int) (hE : startT < endT) :
    (insertData db newId name startT endT instrs flds =
      db ++ [⟨newId, name, startT, (endT - startT).tdiv 60, "NOT STARTED",
        instrs, flds⟩]) ∧
    ((⟨newId, name, startT, (endT - startT).tdiv 60, "NOT STARTED", instrs, flds⟩ :
          JobRow) ∈
        queryActiveRows (insertData db newId name startT endT instrs flds) now ↔
      startT ≤ now ∧ now < startT + ((endT - startT).tdiv 60) * 60) ∧
    (0 ≤ endT - (startT + ((endT - startT).tdiv 60) * 60) ∧
      endT - (startT + ((endT - startT).tdiv 60) * 60) ≤ 59) ∧
    (endT - startT < 60 →
      (⟨newId, name, startT, (endT - startT).tdiv 60, "NOT STARTED", instrs, flds⟩ :
          JobRow) ∉
        queryActiveRows (insertData db newId name startT endT instrs flds) now) := by
  have ha : (0 : Int) ≤ endT - startT := by omega
  have hdm := Int.tdiv_add_tmod (endT - startT) 60
  have hm0 := Int.tmod_nonneg 60 ha
  have hm1 := Int.tmod_lt_of_pos (endT - startT) (by norm_num : (0 : Int) < 60)
  refine ⟨rfl, ?_, by omega, ?_⟩
  · rw [mem_queryActiveRows]
    constructor
    · rintro ⟨_, h5, h6⟩
      exact ⟨h5, h6⟩
    · rintro ⟨h5, h6⟩
      exact ⟨List.mem_append_right _ (List.mem_singleton.mpr rfl), h5, h6⟩
  · intro hshort hmem
    have hd0 : (endT - startT).tdiv 60 = 0 := by
      rw [Int.tdiv_eq_ediv ha (by norm_num)]
      exact Int.ediv_eq_zero_of_lt ha hshort
    have h := mem_queryActiveRows.mp hmem
    dsimp only at h
    rw [hd0] at h
    omega

theorem insert_data_duration_truncation_witness :
    ((0 : Int) < 90) ∧
    ((⟨1, "j", 0, (90 - 0 : Int).tdiv 60, "NOT STARTED", [], []⟩ : JobRow) ∈
        queryActiveRows (insertData [] 1 "j" 0 90 [] []) 30 ↔
      (0 : Int) ≤ 30 ∧ (30 : Int) < 0 + ((90 - 0 : Int).tdiv 60) * 60) :=
  ⟨by decide, (insert_data_duration_truncation [] 1 "j" 0 90 [] [] 30 (by decide)).2.1⟩

theorem query_active_jobs_window_minutes_and_cache_refresh_witness :
    ((⟨1, "j", 0, 1, "NOT STARTED", [], []⟩ : JobRow) ∈
        queryActiveRows [(⟨1, "j", 0, 1, "NOT STARTED", [], []⟩ : JobRow)] 30 ↔
      (⟨1, "j", 0, 1, "NOT STARTED", [], []⟩ : JobRow) ∈
          [(⟨1, "j", 0, 1, "NOT STARTED", [], []⟩ : JobRow)] ∧
        (⟨1, "j", 0, 1, "NOT STARTED", [], []⟩ : JobRow).job_startdatetime ≤ 30 ∧
        (30 : Int) < (⟨1, "j", 0, 1, "NOT STARTED", [], []⟩ : JobRow).job_startdatetime +
          (⟨1, "j", 0, 1, "NOT STARTED", [], []⟩ : JobRow).duration * 60) ∧
    (update_job_cache [(⟨1, "j", 0, 1, "NOT STARTED", [], []⟩ : JobRow)] ⟨[], 0⟩
        30).last_cache_update = 30 :=
  ⟨(query_active_jobs_window_minutes_and_cache_refresh
      [⟨1, "j", 0, 1, "NOT STARTED", [], []⟩] 30 ⟨[], 0⟩).1 _,
    (query_active_jobs_window_minutes_and_cache_refresh
      [⟨1, "j", 0, 1, "NOT STARTED", [], []⟩] 30 ⟨[], 0⟩).2.2.2.1⟩
